import Mathlib

/-!
Verification of the floating-point field extractor and classifier of
`fp_extractor.py` (repository `jackkyyang/fp_extractor`).

The core of the program is embedded shallowly: Python strings are
`List Char`, Python `raise ValueError` / failed `assert` become the
`Except PyErr` monad, and the GUI layer is modelled only where a claim
depends on it (the `update_bits` input preprocessing).  Bit strings are
kept as character lists exactly as the source manipulates them; Python
slice expressions such as `s[msb:lsb-1:-1]` are translated to the
equivalent `drop`/`take`/`reverse` combinations (noted at each use).
-/

/-- Errors raised by the Python code: `ValueError` raised with the three
distinct messages of the source, the `ValueError` that Python's `int`
raises on an unparsable literal, and `AssertionError`.
`invalidHex`/`invalidBin` carry the offending digit string (the spec's
`InvalidDigit`); `missingBase` carries the whole input (the spec's
`MissingPrefix`). -/
inductive PyErr where
  | invalidHex (s : List Char)
  | invalidBin (s : List Char)
  | missingBase (s : List Char)
  | intParse (s : List Char)
  | assertFail (msg : String)
deriving DecidableEq, Repr

/-- `FPFormat = namedtuple("FPFormat", ["width", "exponent", "mantissa"])`;
`exponent` and `mantissa` are `(msb_index, lsb_index)` pairs counted from
the least-significant bit. -/
structure FPFormat where
  width : Nat
  exponent : Nat × Nat
  mantissa : Nat × Nat
deriving DecidableEq, Repr

/-- `Fp = namedtuple("FP", ["sign", "exponent", "mantissa"])`: the
extracted bit-fields (the spec's `BitFields`), exponent and mantissa
kept most-significant bit first. -/
structure Fp where
  sign : Char
  exponent : List Char
  mantissa : List Char
deriving DecidableEq, Repr

instance {ε α : Type} [DecidableEq ε] [DecidableEq α] : DecidableEq (Except ε α) := fun x y =>
  match x, y with
  | .error a, .error b =>
    if h : a = b then .isTrue (by rw [h]) else .isFalse fun hh => h (Except.error.inj hh)
  | .error _, .ok _ => .isFalse fun hh => Except.noConfusion hh
  | .ok _, .error _ => .isFalse fun hh => Except.noConfusion hh
  | .ok a, .ok b =>
    if h : a = b then .isTrue (by rw [h]) else .isFalse fun hh => h (Except.ok.inj hh)

/-- The seven catalog descriptors, in source order. -/
def FP64 : FPFormat := ⟨64, (62, 52), (51, 0)⟩

def FP32 : FPFormat := ⟨32, (30, 23), (22, 0)⟩

def TF32 : FPFormat := ⟨32, (30, 23), (22, 13)⟩

def FP16 : FPFormat := ⟨16, (14, 10), (9, 0)⟩

def BF16 : FPFormat := ⟨16, (14, 7), (6, 0)⟩

def FP8_E4M3 : FPFormat := ⟨8, (6, 3), (2, 0)⟩

def FP8_E5M2 : FPFormat := ⟨8, (6, 2), (1, 0)⟩

/-- `FP_CONFIG`: the format catalog, in the source's insertion order. -/
def FP_CONFIG : List (String × FPFormat) :=
  [("FP64", FP64), ("FP32", FP32), ("TF32", TF32), ("FP16", FP16),
   ("BF16", BF16), ("FP8_E4M3", FP8_E4M3), ("FP8_E5M2", FP8_E5M2)]

/-- `hex_str_check`: every character of the lowered string is a hex digit. -/
def hex_str_check (hex_str : List Char) : Bool :=
  hex_str.all (fun c => ("0123456789abcdef".toList).contains c.toLower)

/-- `bin_str_check`: every character is `0` or `1`. -/
def bin_str_check (bin_str : List Char) : Bool :=
  bin_str.all (fun c => c = '0' || c = '1')

/-- Python `str.zfill`: left-pad with `0` up to length `width`. -/
def zfill (s : List Char) (width : Nat) : List Char :=
  List.replicate (width - s.length) '0' ++ s

/-- Binary digits, most-significant first, of the second argument,
computed with the first argument as structural-recursion fuel; the fuel
suffices whenever it is at least the number (each step halves it). -/
def natToBinAux : Nat → Nat → List Char
  | _, 0 => []
  | 0, _ + 1 => []
  | fuel + 1, n + 1 =>
    natToBinAux fuel ((n + 1) / 2) ++ [if (n + 1) % 2 = 1 then '1' else '0']

/-- Binary digits of a positive integer, most-significant first
(empty for 0).  Helper for `pyBin`. -/
def natToBin (n : Nat) : List Char := natToBinAux n n

theorem natToBinAux_congr : ∀ f1 f2 n, n ≤ f1 → n ≤ f2 →
    natToBinAux f1 n = natToBinAux f2 n := by
  intro f1
  induction f1 with
  | zero =>
    intro f2 n h1 h2
    have hn : n = 0 := by omega
    subst hn
    cases f2 <;> rfl
  | succ f ih =>
    intro f2 n h1 h2
    cases n with
    | zero => cases f2 <;> rfl
    | succ m =>
      cases f2 with
      | zero => omega
      | succ f2' =>
        show natToBinAux f ((m + 1) / 2) ++ _ = natToBinAux f2' ((m + 1) / 2) ++ _
        rw [ih f2' ((m + 1) / 2) (by omega) (by omega)]

/-- The recurrence of Python's positive-integer binary rendering:
high digits of `n / 2`, then the parity digit. -/
theorem natToBin_succ (m : Nat) :
    natToBin (m + 1) = natToBin ((m + 1) / 2) ++ [if (m + 1) % 2 = 1 then '1' else '0'] := by
  show natToBinAux m ((m + 1) / 2) ++ _ = natToBinAux ((m + 1) / 2) ((m + 1) / 2) ++ _
  rw [natToBinAux_congr m ((m + 1) / 2) ((m + 1) / 2) (by omega) (Nat.le_refl _)]

/-- Python `bin(n)[2:]` for a non-negative `n`: binary digits,
most-significant first, with `bin(0)[2:] = "0"`. -/
def pyBin (n : Nat) : List Char :=
  if n = 0 then ['0'] else natToBin n

/-- Value of one hex digit, case-insensitive, as Python `int(·, 16)`
accepts it; `none` for any other character. -/
def hexDigitVal (c : Char) : Option Nat :=
  let l := c.toLower
  if l.isDigit then some (l.toNat - 48)
  else if 'a' ≤ l ∧ l ≤ 'f' then some (l.toNat - 87)
  else none

/-- Python `int(s, 16)` restricted to the shapes reachable in this
program: it raises `ValueError` on the empty string or on a character
that is not a hex digit, and otherwise returns the base-16 value. -/
def py_int16 (s : List Char) : Except PyErr Nat :=
  match s.mapM hexDigitVal with
  | none => .error (.intParse s)
  | some ds =>
    if s.isEmpty then .error (.intParse s)
    else .ok (ds.foldl (fun a d => 16 * a + d) 0)

/-- Python `int(s, 2)` on the non-empty all-`0`/`1` strings this program
feeds it: the base-2 value (`0` on the empty list; the program never
reaches `int` with an empty field for any catalog format). -/
def py_int2 (s : List Char) : Nat :=
  s.foldl (fun a c => 2 * a + (if c = '1' then 1 else 0)) 0

/-- `hex_str_to_bin`: `bin(int(hex_str, 16))[2:].zfill(width)` clipped to
its low-order `width` characters (`bin_str[bin_len - width:]`). -/
def hex_str_to_bin (hex_str : List Char) (width : Nat) : Except PyErr (List Char) :=
  match py_int16 hex_str with
  | .error e => .error e
  | .ok n =>
    let bin_str := zfill (pyBin n) width
    .ok (bin_str.drop (bin_str.length - width))

/-- `extract_exponent`: on the reversed (little-endian) string, the
Python slice `bin_str[msb_idx : exponent_lsb - 1 : -1]`, i.e. characters
at indices `msb_idx` down to `exponent_lsb`; guarded by
`assert fp_fmt.exponent[1] > 1`. -/
def extract_exponent (bin_str : List Char) (fp_fmt : FPFormat) : Except PyErr (List Char) :=
  let msb_idx := fp_fmt.exponent.1
  let lsb_idx := fp_fmt.exponent.2
  if 1 < lsb_idx then
    .ok (((bin_str.drop lsb_idx).take (msb_idx - lsb_idx + 1)).reverse)
  else .error (.assertFail "Invalid Exponent Index")

/-- `extract_mantissa`: the Python slice `bin_str[msb_idx::-1]` when the
mantissa lsb index is 0 (characters `msb_idx` down to 0), and
`bin_str[msb_idx : mantissa_lsb - 1 : -1]` otherwise. -/
def extract_mantissa (bin_str : List Char) (fp_fmt : FPFormat) : List Char :=
  let msb_idx := fp_fmt.mantissa.1
  if fp_fmt.mantissa.2 = 0 then (bin_str.take (msb_idx + 1)).reverse
  else ((bin_str.drop fp_fmt.mantissa.2).take (msb_idx - fp_fmt.mantissa.2 + 1)).reverse

/-- `extract_sign`: `bin_str[fp_fmt.width - 1]` of the reversed string
(always in range at its call sites, where the length equals the width). -/
def extract_sign (bin_str : List Char) (fp_fmt : FPFormat) : Char :=
  bin_str.getD (fp_fmt.width - 1) '?'

/-- `hex_extractor`: validate, convert to a width-clipped binary string,
reverse into little-endian order, assert the length, and slice. -/
def hex_extractor (hex_str : List Char) (fp_fmt : FPFormat) : Except PyErr Fp :=
  if hex_str_check hex_str then
    match hex_str_to_bin hex_str fp_fmt.width with
    | .error e => .error e
    | .ok b =>
      let bin_str := b.reverse
      if bin_str.length = fp_fmt.width then
        match extract_exponent bin_str fp_fmt with
        | .error e => .error e
        | .ok expo => .ok ⟨extract_sign bin_str fp_fmt, expo, extract_mantissa bin_str fp_fmt⟩
      else .error (.assertFail "Invalid binary string length")
  else .error (.invalidHex hex_str)

/-- `bin_extractor`: validate, `zfill` to the width, clip to the low
`width` characters, reverse into little-endian order, assert, slice. -/
def bin_extractor (bin_str : List Char) (fp_fmt : FPFormat) : Except PyErr Fp :=
  if bin_str_check bin_str then
    let padded := zfill bin_str fp_fmt.width
    let tmp_str := padded.drop (padded.length - fp_fmt.width)
    let fp_str := tmp_str.reverse
    if fp_str.length = fp_fmt.width then
      match extract_exponent fp_str fp_fmt with
      | .error e => .error e
      | .ok expo => .ok ⟨extract_sign fp_str fp_fmt, expo, extract_mantissa fp_str fp_fmt⟩
    else .error (.assertFail "Invalid binary string length")
  else .error (.invalidBin bin_str)

/-- `FPExtractor.extract_fp_str`, purified to return the extracted
fields: lower-case the input, dispatch on the `0x`/`0b` base marker,
raise `ValueError` when neither is present. -/
def extract_fp_str (fp_fmt : FPFormat) (input : List Char) : Except PyErr Fp :=
  let fp_str := input.map Char.toLower
  if fp_str.take 2 = ['0', 'x'] then hex_extractor (fp_str.drop 2) fp_fmt
  else if fp_str.take 2 = ['0', 'b'] then bin_extractor (fp_str.drop 2) fp_fmt
  else .error (.missingBase fp_str)

/-- The mutable `sign` / `exponent` / `mantissa` attributes of an
`FPExtractor` instance (`None` before any successful extraction). -/
structure ExtState where
  sign : Option Char
  exponent : Option (List Char)
  mantissa : Option (List Char)
deriving DecidableEq, Repr

/-- One `extract_fp_str` call observed on the instance state: the three
attributes are assigned only after the extractor returns, so a raised
exception (returned alongside the state) leaves the state unchanged. -/
def extract_fp_run (fp_fmt : FPFormat) (st : ExtState) (input : List Char) :
    ExtState × Option PyErr :=
  match extract_fp_str fp_fmt input with
  | .ok fp => (⟨some fp.sign, some fp.exponent, some fp.mantissa⟩, none)
  | .error e => (st, some e)

/-- The classification strings returned by `get_fp_expression` /
`get_e4m3_expression`, one constructor per distinct rendering:
`"+Zero"`, `"-Zero"`, `"+Inf"`, `"-Inf"`, `"NaN"`, and the
`Normal`/`Subnormal` renderings, which carry the sign character, the
reported (effective) exponent and the mantissa bit string shown after
the implicit `1.` (normal) or `0.` (subnormal). -/
inductive FpClass where
  | PosZero
  | NegZero
  | PosInf
  | NegInf
  | NaN
  | Subnormal (sign : Char) (exponent : Int) (mantissa : List Char)
  | Normal (sign : Char) (exponent : Int) (mantissa : List Char)
deriving DecidableEq, Repr

/-- `FPExtractor.get_e4m3_expression`.  Note the source's zero branch is
`"+Zero" if sign == "1" else "-Zero"` — the sign test is the reverse of
the one in `get_fp_expression`. -/
def get_e4m3_expression (mantissa : List Char) (exponent_value : Int)
    (mantissa_value : Nat) (sign : Char) : FpClass :=
  if exponent_value = 8 ∧ mantissa_value = 7 then .NaN
  else if exponent_value = -7 then
    if mantissa_value = 0 then (if sign = '1' then .PosZero else .NegZero)
    else .Subnormal sign (exponent_value + 1) mantissa
  else .Normal sign exponent_value mantissa

/-- `FPExtractor.get_fp_expression`, on an instance whose `sign`,
`exponent`, `mantissa` attributes hold the given extracted fields
(`is_positive` is `sign == "0"`). -/
def get_fp_expression (fmt_name : String) (fp_fmt : FPFormat) (sign : Char)
    (exponent : List Char) (mantissa : List Char) : FpClass :=
  let exponent_width := fp_fmt.exponent.1 - fp_fmt.exponent.2 + 1
  let exponent_bias : Int := 2 ^ (exponent_width - 1) - 1
  let exponent_original : Int := py_int2 exponent
  let exponent_effective := exponent_original - exponent_bias
  let mantissa_value := py_int2 mantissa
  if fmt_name = "FP8_E4M3" then
    get_e4m3_expression mantissa exponent_effective mantissa_value sign
  else if exponent_effective = exponent_bias + 1 then
    if mantissa_value = 0 then (if sign = '0' then .PosInf else .NegInf) else .NaN
  else if exponent_original = 0 then
    if mantissa_value = 0 then (if sign = '0' then .PosZero else .NegZero)
    else .Subnormal sign (exponent_effective + 1) mantissa
  else .Normal sign exponent_effective mantissa

/-- The extract-then-classify pipeline one GUI entry runs on success:
`extract_fp_str` followed by `get_fp_expression` on the new state. -/
def decode_classify (fmt_name : String) (fp_fmt : FPFormat) (input : List Char) :
    Except PyErr FpClass :=
  match extract_fp_str fp_fmt input with
  | .error e => .error e
  | .ok fp => .ok (get_fp_expression fmt_name fp_fmt fp.sign fp.exponent fp.mantissa)

/-- Python `str.strip`: remove leading and trailing whitespace. -/
def pyStrip (s : List Char) : List Char :=
  ((s.dropWhile Char.isWhitespace).reverse.dropWhile Char.isWhitespace).reverse

/-- The input preprocessing of `GUI.update_bits`:
`input_str.strip().replace("_", "").lower()`. -/
def update_bits_pre (s : List Char) : List Char :=
  ((pyStrip s).filter (fun c => c != '_')).map Char.toLower

/-- `GUI.update_bits`, reduced to its state effect on one extractor: it
preprocesses the raw entry text, calls `extract_fp_str` only when the
result is longer than 2 and carries a recognized base marker, and
catches any `ValueError` (leaving the extractor state unchanged). -/
def update_bits (fp_fmt : FPFormat) (st : ExtState) (input : List Char) :
    ExtState × Option PyErr :=
  let fp_str := update_bits_pre input
  if 2 < fp_str.length ∧ (fp_str.take 2 = ['0', 'x'] ∨ fp_str.take 2 = ['0', 'b']) then
    extract_fp_run fp_fmt st fp_str
  else (st, none)

/-! ### Helper lemmas about the bit-string plumbing -/

theorem bin_str_check_iff {s : List Char} :
    bin_str_check s = true ↔ ∀ c ∈ s, c = '0' ∨ c = '1' := by
  simp [bin_str_check]

theorem bin_str_check_drop {s : List Char} (k : Nat) (h : bin_str_check s = true) :
    bin_str_check (s.drop k) = true := by
  rw [bin_str_check_iff] at h ⊢
  exact fun c hc => h c (List.mem_of_mem_drop hc)

theorem bin_str_check_zfill {s : List Char} (w : Nat) (h : bin_str_check s = true) :
    bin_str_check (zfill s w) = true := by
  rw [bin_str_check_iff] at h ⊢
  intro c hc
  rcases List.mem_append.mp hc with h1 | h2
  · exact Or.inl (List.eq_of_mem_replicate h1)
  · exact h c h2

theorem natToBin_chars : ∀ n, ∀ c ∈ natToBin n, c = '0' ∨ c = '1' := by
  intro n
  induction n using Nat.strong_induction_on with
  | _ n ih =>
    cases n with
    | zero => intro c hc; simp [natToBin, natToBinAux] at hc
    | succ m =>
      intro c hc
      rw [natToBin_succ] at hc
      rcases List.mem_append.mp hc with h1 | h2
      · exact ih _ (Nat.div_lt_self (Nat.succ_pos m) (by decide)) c h1
      · rw [List.mem_singleton] at h2
        subst h2
        split <;> simp

theorem natToBin_length_le : ∀ w n, n < 2 ^ w → (natToBin n).length ≤ w := by
  intro w
  induction w with
  | zero =>
    intro n hn
    have : n = 0 := by omega
    subst this
    simp [natToBin, natToBinAux]
  | succ w ih =>
    intro n hn
    cases n with
    | zero => simp [natToBin, natToBinAux]
    | succ m =>
      rw [natToBin_succ, List.length_append]
      have h2 : (m + 1) / 2 < 2 ^ w := by
        rw [Nat.div_lt_iff_lt_mul (by norm_num : (0:Nat) < 2)]
        calc m + 1 < 2 ^ (w + 1) := hn
          _ = 2 ^ w * 2 := by rw [Nat.pow_succ]
      have := ih _ h2
      simp only [List.length_singleton]
      omega

theorem bin_str_check_pyBin (n : Nat) : bin_str_check (pyBin n) = true := by
  rw [bin_str_check_iff]
  intro c hc
  unfold pyBin at hc
  split at hc
  · rw [List.mem_singleton] at hc; exact Or.inl hc
  · exact natToBin_chars n c hc

theorem pyBin_length_le {w n : Nat} (hw : 1 ≤ w) (hn : n < 2 ^ w) :
    (pyBin n).length ≤ w := by
  unfold pyBin
  split
  · simpa using hw
  · exact natToBin_length_le w n hn

theorem zfill_of_length_le {s : List Char} {w : Nat} (h : w ≤ s.length) :
    zfill s w = s := by
  simp [zfill, Nat.sub_eq_zero_of_le h]

theorem zfill_length_of_le {s : List Char} {w : Nat} (h : s.length ≤ w) :
    (zfill s w).length = w := by
  simp [zfill]
  omega

theorem le_zfill_length (s : List Char) (w : Nat) : w ≤ (zfill s w).length := by
  simp [zfill]
  omega

theorem map_toLower_bin {s : List Char} (h : bin_str_check s = true) :
    s.map Char.toLower = s := by
  rw [bin_str_check_iff] at h
  induction s with
  | nil => rfl
  | cons c t ih =>
    have hc := h c (List.mem_cons_self c t)
    have ht := ih fun x hx => h x (List.mem_cons_of_mem c hx)
    rw [List.map_cons, ht]
    rcases hc with rfl | rfl <;> rfl

/-! ### The little-endian slices, re-expressed on the big-endian string -/

theorem rev_getD (s : List Char) (w : Nat) (hlen : s.length = w) (hw : 0 < w) :
    s.reverse.getD (w - 1) '?' = s.getD 0 '?' := by
  rw [List.getD_eq_getElem?_getD, List.getD_eq_getElem?_getD]
  rw [List.getElem?_reverse (by rw [hlen]; omega)]
  have h0 : s.length - 1 - (w - 1) = 0 := by omega
  rw [h0]

theorem rev_slice (s : List Char) (w a b : Nat) (hlen : s.length = w)
    (hab : a ≤ b) (hbw : b < w) :
    ((s.reverse.drop a).take (b - a + 1)).reverse =
      (s.drop (w - 1 - b)).take (b - a + 1) := by
  rw [List.drop_reverse, hlen, List.take_reverse, List.reverse_reverse]
  rw [List.length_take, hlen, Nat.min_eq_left (Nat.sub_le w a)]
  rw [List.drop_take]
  have h1 : w - a - (b - a + 1) = w - 1 - b := by omega
  have h2 : w - a - (w - 1 - b) = b - a + 1 := by omega
  rw [h1, h2]

theorem extract_mantissa_eq (r : List Char) (fp_fmt : FPFormat) :
    extract_mantissa r fp_fmt =
      ((r.drop fp_fmt.mantissa.2).take (fp_fmt.mantissa.1 - fp_fmt.mantissa.2 + 1)).reverse := by
  unfold extract_mantissa
  split
  · rename_i h; rw [h]; simp
  · rfl

/-- The main structural lemma: on a validated string whose length equals
the format width, `bin_extractor` succeeds, and the three extracted
fields are exactly the first character, the next `em - el + 1`
characters, and the `mm - ml + 1` characters starting at offset
`w - el`, of the big-endian input. -/
theorem bin_extractor_exact (s : List Char) (w em el mm ml : Nat)
    (hc : bin_str_check s = true) (hlen : s.length = w)
    (hem : em + 2 = w) (hmm : mm + 1 = el) (hel : 1 < el)
    (helem : el ≤ em) (hml : ml ≤ mm) :
    bin_extractor s ⟨w, (em, el), (mm, ml)⟩ =
      Except.ok ⟨s.getD 0 '?', (s.drop 1).take (em - el + 1),
        (s.drop (w - el)).take (mm - ml + 1)⟩ := by
  have hzf : zfill s w = s := zfill_of_length_le (by omega)
  have hsign : extract_sign s.reverse ⟨w, (em, el), (mm, ml)⟩ = s.getD 0 '?' := by
    unfold extract_sign
    exact rev_getD s w hlen (by omega)
  have hexp : extract_exponent s.reverse ⟨w, (em, el), (mm, ml)⟩ =
      Except.ok ((s.drop 1).take (em - el + 1)) := by
    unfold extract_exponent
    rw [if_pos hel]
    have := rev_slice s w el em hlen helem (by omega)
    rw [this]
    have h1 : w - 1 - em = 1 := by omega
    rw [h1]
  have hman : extract_mantissa s.reverse ⟨w, (em, el), (mm, ml)⟩ =
      (s.drop (w - el)).take (mm - ml + 1) := by
    rw [extract_mantissa_eq]
    have := rev_slice s w ml mm hlen hml (by omega)
    rw [this]
    have h1 : w - 1 - mm = w - el := by omega
    rw [h1]
  unfold bin_extractor
  rw [if_pos hc]
  simp only [hzf, hlen, Nat.sub_self, List.drop_zero, List.length_reverse, if_true]
  rw [hexp, hsign, hman]

/-- `bin_extractor` only looks at the low-order `width` characters of the
zero-filled digit string: feeding it that clipped string is a no-op. -/
theorem bin_extractor_clip (s : List Char) (fp_fmt : FPFormat)
    (hc : bin_str_check s = true) :
    bin_extractor s fp_fmt =
      bin_extractor ((zfill s fp_fmt.width).drop ((zfill s fp_fmt.width).length - fp_fmt.width))
        fp_fmt := by
  have hct : bin_str_check
      ((zfill s fp_fmt.width).drop ((zfill s fp_fmt.width).length - fp_fmt.width)) = true :=
    bin_str_check_drop _ (bin_str_check_zfill fp_fmt.width hc)
  have hlt : ((zfill s fp_fmt.width).drop ((zfill s fp_fmt.width).length - fp_fmt.width)).length
      = fp_fmt.width := by
    rw [List.length_drop]
    have := le_zfill_length s fp_fmt.width
    omega
  have hzt : zfill ((zfill s fp_fmt.width).drop ((zfill s fp_fmt.width).length - fp_fmt.width))
      fp_fmt.width = (zfill s fp_fmt.width).drop ((zfill s fp_fmt.width).length - fp_fmt.width) :=
    zfill_of_length_le (le_of_eq hlt.symm)
  unfold bin_extractor
  rw [if_pos hc, if_pos hct]
  simp only [hzt, hlt, Nat.sub_self, List.drop_zero]

/-- A binary digit string longer than the width is not rejected: the
extractor behaves exactly as on the string's low-order `width`
characters (and on a short string the clip is the identity). -/
theorem bin_extractor_drop_eq (s : List Char) (fp_fmt : FPFormat)
    (hc : bin_str_check s = true) :
    bin_extractor s fp_fmt = bin_extractor (s.drop (s.length - fp_fmt.width)) fp_fmt := by
  rcases le_or_lt s.length fp_fmt.width with h | h
  · rw [Nat.sub_eq_zero_of_le h, List.drop_zero]
  · have h2 : zfill s fp_fmt.width = s := zfill_of_length_le (Nat.le_of_lt h)
    have h3 := bin_extractor_clip s fp_fmt hc
    rw [h2] at h3
    exact h3

/-- On any valid binary digit string, a catalog-shaped format extracts
successfully, with the exponent and mantissa fields of their declared
widths. -/
theorem bin_extractor_ok (s : List Char) (w em el mm ml : Nat)
    (hc : bin_str_check s = true)
    (hem : em + 2 = w) (hmm : mm + 1 = el) (hel : 1 < el)
    (helem : el ≤ em) (hml : ml ≤ mm) :
    ∃ fp, bin_extractor s ⟨w, (em, el), (mm, ml)⟩ = Except.ok fp ∧
      fp.exponent.length = em - el + 1 ∧ fp.mantissa.length = mm - ml + 1 := by
  rw [bin_extractor_clip s _ hc]
  have hct : bin_str_check ((zfill s w).drop ((zfill s w).length - w)) = true :=
    bin_str_check_drop _ (bin_str_check_zfill w hc)
  have hlt : ((zfill s w).drop ((zfill s w).length - w)).length = w := by
    rw [List.length_drop]
    have := le_zfill_length s w
    omega
  refine ⟨_, bin_extractor_exact _ w em el mm ml hct hlt hem hmm hel helem hml, ?_, ?_⟩
  · rw [List.length_take, List.length_drop, hlt, Nat.min_eq_left (by omega)]
  · rw [List.length_take, List.length_drop, hlt, Nat.min_eq_left (by omega)]

/-- The hex pipeline and the binary pipeline meet: once `int(·, 16)` has
produced the value `n`, extracting the hex string is extracting `bin(n)`
— including the silent clip of a value wider than the format. -/
theorem hex_extractor_eq_bin (h : List Char) (fp_fmt : FPFormat) (n : Nat)
    (hhc : hex_str_check h = true) (hn : py_int16 h = Except.ok n) :
    hex_extractor h fp_fmt = bin_extractor (pyBin n) fp_fmt := by
  unfold hex_extractor bin_extractor hex_str_to_bin
  rw [if_pos hhc, if_pos (bin_str_check_pyBin n), hn]

/-! ### Arithmetic of the field values -/

theorem py_int2_shift (m : List Char) :
    ∀ a, m.foldl (fun x c => 2 * x + (if c = '1' then 1 else 0)) a =
      a * 2 ^ m.length + py_int2 m := by
  induction m with
  | nil => intro a; simp [py_int2]
  | cons c t ih =>
    intro a
    simp only [List.foldl_cons, py_int2, List.length_cons]
    rw [ih, ih (2 * 0 + (if c = '1' then 1 else 0))]
    ring_nf

theorem py_int2_cons (c : Char) (t : List Char) :
    py_int2 (c :: t) = (if c = '1' then 1 else 0) * 2 ^ t.length + py_int2 t := by
  show List.foldl _ (2 * 0 + (if c = '1' then 1 else 0)) t = _
  rw [py_int2_shift]
  norm_num

theorem py_int2_replicate_zero (k : Nat) : py_int2 (List.replicate k '0') = 0 := by
  induction k with
  | zero => rfl
  | succ k ih =>
    rw [List.replicate_succ, py_int2_cons, ih]
    simp

/-- For a valid binary string, value zero is exactly the all-`0` string. -/
theorem py_int2_eq_zero {m : List Char} (hc : bin_str_check m = true) :
    py_int2 m = 0 ↔ m = List.replicate m.length '0' := by
  induction m with
  | nil => simp [py_int2]
  | cons c t ih =>
    rw [bin_str_check_iff] at hc
    have hct : bin_str_check t = true :=
      bin_str_check_iff.mpr fun x hx => hc x (List.mem_cons_of_mem c hx)
    have hcc := hc c (List.mem_cons_self c t)
    have hpow : 0 < 2 ^ t.length := Nat.two_pow_pos t.length
    rw [py_int2_cons, List.length_cons, List.replicate_succ]
    rcases hcc with rfl | rfl
    · simp [ih hct]
    · simp

/-! ### `int(·, 16)` succeeds on validated, non-empty hex strings -/

theorem hex_str_check_iff {s : List Char} :
    hex_str_check s = true ↔
      ∀ c ∈ s, c.toLower ∈ ("0123456789abcdef".toList) := by
  simp [hex_str_check]

theorem hexDigitVal_isSome {c : Char}
    (h : c.toLower ∈ ("0123456789abcdef".toList)) : (hexDigitVal c).isSome = true := by
  have key : ∀ l ∈ ("0123456789abcdef".toList),
      (if l.isDigit then some (l.toNat - 48)
       else if 'a' ≤ l ∧ l ≤ 'f' then some (l.toNat - 87)
       else (none : Option Nat)).isSome = true := by decide
  exact key c.toLower h

theorem mapM_isSome {f : Char → Option Nat} :
    ∀ {s : List Char}, (∀ c ∈ s, (f c).isSome = true) → ∃ ds, s.mapM f = some ds := by
  intro s
  induction s with
  | nil => exact fun _ => ⟨[], rfl⟩
  | cons c t ih =>
    intro h
    obtain ⟨d, hd⟩ := Option.isSome_iff_exists.mp (h c (List.mem_cons_self c t))
    obtain ⟨ds, hds⟩ := ih fun x hx => h x (List.mem_cons_of_mem c hx)
    exact ⟨d :: ds, by rw [List.mapM_cons, hd, hds]; rfl⟩

theorem py_int16_ok {s : List Char} (hc : hex_str_check s = true) (hne : s ≠ []) :
    ∃ n, py_int16 s = Except.ok n := by
  obtain ⟨ds, hds⟩ :=
    mapM_isSome fun c hcs => hexDigitVal_isSome (hex_str_check_iff.mp hc c hcs)
  cases s with
  | nil => exact absurd rfl hne
  | cons c t =>
    refine ⟨ds.foldl (fun a d => 16 * a + d) 0, ?_⟩
    unfold py_int16
    rw [hds]
    rfl

/-! ### The classifier on an all-zero exponent field -/

/-- For every format handled by the general branch of
`get_fp_expression`, an all-zero exponent field with a non-zero mantissa
value is reported `Subnormal` with exponent `1 - bias`. -/
theorem get_fp_expression_subnormal (fmt_name : String) (fp_fmt : FPFormat)
    (sign : Char) (m : List Char)
    (hname : ¬ fmt_name = "FP8_E4M3") (hnz : ¬ py_int2 m = 0) :
    get_fp_expression fmt_name fp_fmt sign
        (List.replicate (fp_fmt.exponent.1 - fp_fmt.exponent.2 + 1) '0') m =
      FpClass.Subnormal sign
        (1 - ((2 : Int) ^ (fp_fmt.exponent.1 - fp_fmt.exponent.2 + 1 - 1) - 1)) m := by
  have hpow : (0 : Int) < 2 ^ (fp_fmt.exponent.1 - fp_fmt.exponent.2 + 1 - 1) :=
    pow_pos (by norm_num) _
  unfold get_fp_expression
  rw [if_neg hname]
  rw [py_int2_replicate_zero]
  rw [if_neg (by push_cast; omega)]
  rw [if_pos (by norm_num)]
  rw [if_neg hnz]
  congr 1
  push_cast
  omega

/-- Re-concatenating the three extracted fields of `bin_extractor_exact`
recovers the big-endian input up to the unused low `ml` bits. -/
theorem concat_fields (s : List Char) (w em el mm ml : Nat) (hlen : s.length = w)
    (hem : em + 2 = w) (hmm : mm + 1 = el) (hel : 1 < el)
    (helem : el ≤ em) (hml : ml ≤ mm) :
    s.getD 0 '?' :: ((s.drop 1).take (em - el + 1) ++ (s.drop (w - el)).take (mm - ml + 1)) =
      s.take (w - ml) := by
  cases s with
  | nil => exfalso; simp at hlen; omega
  | cons c t =>
    have hlt : t.length + 1 = w := by simpa using hlen
    have h1 : w - el = (w - el - 1) + 1 := by omega
    have h2 : w - ml = (w - ml - 1) + 1 := by omega
    rw [h1, h2, List.take_succ_cons, List.getD_cons_zero, List.drop_succ_cons,
      List.drop_succ_cons, List.drop_zero]
    congr 1
    have h3 : w - ml - 1 = (em - el + 1) + (mm - ml + 1) := by omega
    have h4 : w - el - 1 = em - el + 1 := by omega
    rw [h3, h4]
    conv_rhs => rw [List.take_add]

/-- Round-trip for a catalog-shaped format: encode `n < 2^w` as a
`w`-character zero-padded binary string, extract, and re-concatenate the
fields; the top `w - ml` characters come back. -/
theorem roundtrip_general (w em el mm ml n : Nat)
    (hem : em + 2 = w) (hmm : mm + 1 = el) (hel : 1 < el)
    (helem : el ≤ em) (hml : ml ≤ mm) (hn : n < 2 ^ w) :
    ∃ fp, bin_extractor (zfill (pyBin n) w) ⟨w, (em, el), (mm, ml)⟩ = Except.ok fp ∧
      fp.sign :: (fp.exponent ++ fp.mantissa) = (zfill (pyBin n) w).take (w - ml) := by
  have hlen : (zfill (pyBin n) w).length = w :=
    zfill_length_of_le (pyBin_length_le (by omega) hn)
  have hc : bin_str_check (zfill (pyBin n) w) = true :=
    bin_str_check_zfill w (bin_str_check_pyBin n)
  exact ⟨_, bin_extractor_exact _ w em el mm ml hc hlen hem hmm hel helem hml,
    concat_fields _ w em el mm ml hlen hem hmm hel helem hml⟩

/-- Truncation bundle for a catalog-shaped format: over-length binary
strings are clipped rather than rejected, and validated hex strings go
through the same clipped binary pipeline without error. -/
theorem trunc_general (w em el mm ml : Nat)
    (hem : em + 2 = w) (hmm : mm + 1 = el) (hel : 1 < el)
    (helem : el ≤ em) (hml : ml ≤ mm) :
    (∀ s : List Char, bin_str_check s = true →
      bin_extractor s ⟨w, (em, el), (mm, ml)⟩ =
        bin_extractor (s.drop (s.length - w)) ⟨w, (em, el), (mm, ml)⟩ ∧
      ∃ fp, bin_extractor s ⟨w, (em, el), (mm, ml)⟩ = Except.ok fp) ∧
    (∀ h : List Char, hex_str_check h = true → h ≠ [] →
      ∃ n fp, py_int16 h = Except.ok n ∧
        hex_extractor h ⟨w, (em, el), (mm, ml)⟩ =
          bin_extractor (pyBin n) ⟨w, (em, el), (mm, ml)⟩ ∧
        hex_extractor h ⟨w, (em, el), (mm, ml)⟩ = Except.ok fp) := by
  constructor
  · intro s hcs
    refine ⟨bin_extractor_drop_eq s _ hcs, ?_⟩
    obtain ⟨fp, hfp, -, -⟩ := bin_extractor_ok s w em el mm ml hcs hem hmm hel helem hml
    exact ⟨fp, hfp⟩
  · intro h hch hne
    obtain ⟨n, hn⟩ := py_int16_ok hch hne
    have heq := hex_extractor_eq_bin h ⟨w, (em, el), (mm, ml)⟩ n hch hn
    obtain ⟨fp, hfp, -, -⟩ :=
      bin_extractor_ok (pyBin n) w em el mm ml (bin_str_check_pyBin n) hem hmm hel helem hml
    exact ⟨n, fp, hn, heq, heq.trans hfp⟩

/-- Classifying a binary-prefixed catalog input never raises once the
digits are valid and extraction succeeds. -/
theorem decode_classify_bin_ok (fmt_name : String) (fp_fmt : FPFormat) (s : List Char)
    (hc : bin_str_check s = true) (hfp : ∃ fp, bin_extractor s fp_fmt = Except.ok fp) :
    ∃ c, decode_classify fmt_name fp_fmt ('0' :: 'b' :: s) = Except.ok c := by
  obtain ⟨fp, hfp⟩ := hfp
  have hextr : extract_fp_str fp_fmt ('0' :: 'b' :: s) = bin_extractor s fp_fmt := by
    unfold extract_fp_str
    rw [List.map_cons, List.map_cons, map_toLower_bin hc]
    rfl
  refine ⟨get_fp_expression fmt_name fp_fmt fp.sign fp.exponent fp.mantissa, ?_⟩
  unfold decode_classify
  rw [hextr, hfp]

/-! ### The claims -/

/-- C1: the claim states that for every format the all-zero pattern
renders `+Zero` and the sign-bit-only pattern renders `-Zero`.  The
general classifier branch does exactly that (third conjunct, over every
non-FP8_E4M3 catalog entry), but the FP8_E4M3 branch tests
`sign == "1"` for `+Zero`, so on that format the two renderings are
swapped: `0x00` gives `-Zero` and `0x80` gives `+Zero` (first two
conjuncts), contradicting the claim on the format it singles out. -/
theorem C1_e4m3_zero_sign_flipped :
    decode_classify "FP8_E4M3" FP8_E4M3 (String.toList "0x00") = Except.ok FpClass.NegZero ∧
    decode_classify "FP8_E4M3" FP8_E4M3 (String.toList "0x80") = Except.ok FpClass.PosZero ∧
    FP_CONFIG.all (fun p =>
      decide (p.1 = "FP8_E4M3") ||
      (decide (decode_classify p.1 p.2 ('0' :: 'b' :: List.replicate p.2.width '0') =
          Except.ok FpClass.PosZero) &&
       decide (decode_classify p.1 p.2 ('0' :: 'b' :: '1' :: List.replicate (p.2.width - 1) '0') =
          Except.ok FpClass.NegZero))) = true := by
  decide

/-- C2 counterexample: the claim says a bare `0x` decodes as zero for
every format and never fails; but `int("", 16)` raises `ValueError`, so
`extract_fp_str` on `"0x"` fails (here on the 32-bit format). -/
theorem C2_counterexample_hex_empty :
    extract_fp_str FP32 (String.toList "0x") = Except.error (PyErr.intParse []) := by
  decide

/-- C2 amended: for every catalog format a bare `0b` (empty binary digit
string) decodes as the value zero — sign `0`, all exponent and mantissa
bits `0` — while a bare `0x` (empty hex digit string) raises, because
the digit string reaches `int(·, 16)` empty. -/
theorem C2_amended_empty_digits :
    FP_CONFIG.all (fun p =>
      decide (extract_fp_str p.2 ['0', 'b'] =
        Except.ok ⟨'0', List.replicate (p.2.exponent.1 - p.2.exponent.2 + 1) '0',
          List.replicate (p.2.mantissa.1 - p.2.mantissa.2 + 1) '0'⟩) &&
      decide (extract_fp_str p.2 ['0', 'x'] = Except.error (PyErr.intParse []))) = true := by
  decide

set_option maxRecDepth 80000 in
/-- C3: on FP8_E4M3, `0x7E` (exponent field all ones, mantissa `110`,
effective exponent 8) classifies as Normal; `0x7F` classifies as NaN;
and over all 256 encodings the NaN patterns are exactly `0x7F` (127) and
its sign variant `0xFF` (255) — and no encoding ever classifies as an
infinity. -/
theorem C3_e4m3_no_infinity_unique_nan :
    decode_classify "FP8_E4M3" FP8_E4M3 (String.toList "0x7E") =
      Except.ok (FpClass.Normal '0' 8 ['1', '1', '0']) ∧
    decode_classify "FP8_E4M3" FP8_E4M3 (String.toList "0x7F") = Except.ok FpClass.NaN ∧
    (List.range 256).all (fun n =>
      decide (decode_classify "FP8_E4M3" FP8_E4M3 ('0' :: 'b' :: pyBin n) =
          Except.ok FpClass.NaN ↔ (n = 127 ∨ n = 255)) &&
      decide (decode_classify "FP8_E4M3" FP8_E4M3 ('0' :: 'b' :: pyBin n) ≠
          Except.ok FpClass.PosInf) &&
      decide (decode_classify "FP8_E4M3" FP8_E4M3 ('0' :: 'b' :: pyBin n) ≠
          Except.ok FpClass.NegInf)) = true := by
  decide

/-- C9 counterexample: the claim says the core extraction strips
underscores, so that `0x1_2` decodes like `0x12`.  In the code the core
`extract_fp_str` does no stripping: on `0x1_2` it raises with the
invalid digit string `1_2`, which is not the successful result of
`0x12`. -/
theorem C9_counterexample_core_underscore :
    extract_fp_str FP32 (String.toList "0x1_2") =
      Except.error (PyErr.invalidHex ['1', '_', '2']) ∧
    extract_fp_str FP32 (String.toList "0x1_2") ≠ extract_fp_str FP32 (String.toList "0x12") := by
  decide

/-- C9 amended: the underscore stripping lives in the GUI caller
`update_bits` (`input_str.strip().replace("_", "").lower()`), not in the
core extraction; through that caller `0x1_2` is preprocessed to `0x12`
and updates every catalog extractor exactly as `0x12` does, with no
error. -/
theorem C9_amended_gui_strips_underscores :
    update_bits_pre (String.toList "0x1_2") = String.toList "0x12" ∧
    FP_CONFIG.all (fun p =>
      decide (update_bits p.2 ⟨none, none, none⟩ (String.toList "0x1_2") =
        update_bits p.2 ⟨none, none, none⟩ (String.toList "0x12")) &&
      decide ((update_bits p.2 ⟨none, none, none⟩ (String.toList "0x1_2")).2 = none)) = true := by
  constructor
  · decide
  · decide

/-- C4: for every catalog format and every `n < 2^width`, extracting the
zero-padded `width`-character binary rendering of `n` succeeds, and
sign, exponent bits and mantissa bits concatenate back to the original
pattern up to the unused low `mantissa_lsb` gap bits (`mantissa_lsb` is
0 for every format except TF32, where the low 13 gap bits are dropped,
leaving the top 19 characters). -/
theorem C4_roundtrip_concat (p : String × FPFormat) (hp : p ∈ FP_CONFIG)
    (n : Nat) (hn : n < 2 ^ p.2.width) :
    ∃ fp, bin_extractor (zfill (pyBin n) p.2.width) p.2 = Except.ok fp ∧
      fp.sign :: (fp.exponent ++ fp.mantissa) =
        (zfill (pyBin n) p.2.width).take (p.2.width - p.2.mantissa.2) := by
  simp only [FP_CONFIG, List.mem_cons, List.not_mem_nil, or_false] at hp
  rcases hp with rfl | rfl | rfl | rfl | rfl | rfl | rfl
  · exact roundtrip_general 64 62 52 51 0 n (by norm_num) (by norm_num) (by norm_num)
      (by norm_num) (by norm_num) hn
  · exact roundtrip_general 32 30 23 22 0 n (by norm_num) (by norm_num) (by norm_num)
      (by norm_num) (by norm_num) hn
  · exact roundtrip_general 32 30 23 22 13 n (by norm_num) (by norm_num) (by norm_num)
      (by norm_num) (by norm_num) hn
  · exact roundtrip_general 16 14 10 9 0 n (by norm_num) (by norm_num) (by norm_num)
      (by norm_num) (by norm_num) hn
  · exact roundtrip_general 16 14 7 6 0 n (by norm_num) (by norm_num) (by norm_num)
      (by norm_num) (by norm_num) hn
  · exact roundtrip_general 8 6 3 2 0 n (by norm_num) (by norm_num) (by norm_num)
      (by norm_num) (by norm_num) hn
  · exact roundtrip_general 8 6 2 1 0 n (by norm_num) (by norm_num) (by norm_num)
      (by norm_num) (by norm_num) hn

/-- C4 witness: the round-trip instantiated on the 8-bit 5-bit-exponent
format at `n = 129`. -/
theorem C4_roundtrip_concat_witness :
    (("FP8_E5M2", FP8_E5M2) ∈ FP_CONFIG ∧ 129 < 2 ^ (8 : Nat)) ∧
    (∃ fp, bin_extractor (zfill (pyBin 129) 8) FP8_E5M2 = Except.ok fp ∧
      fp.sign :: (fp.exponent ++ fp.mantissa) = (zfill (pyBin 129) 8).take (8 - 0)) :=
  ⟨⟨by decide, by norm_num⟩,
    C4_roundtrip_concat ("FP8_E5M2", FP8_E5M2) (by decide) 129 (by decide)⟩

/-- C5: for the 32-bit format, any bit fields with exponent field all
ones (`0xFF`) classify as `+Inf` when the sign bit is `0` and the
mantissa value is zero, as `-Inf` when the sign bit is `1` and the
mantissa value is zero, and as `NaN` whenever the mantissa is non-zero;
the first conjunct identifies zero mantissa value with the all-zero
mantissa field. -/
theorem C5_fp32_max_exponent (sc : Char) (m : List Char)
    (hm : m.length = 23) (hc : bin_str_check m = true) :
    (py_int2 m = 0 ↔ m = List.replicate 23 '0') ∧
    get_fp_expression "FP32" FP32 sc (List.replicate 8 '1') m =
      (if py_int2 m = 0 then (if sc = '0' then FpClass.PosInf else FpClass.NegInf)
       else FpClass.NaN) := by
  constructor
  · rw [py_int2_eq_zero hc, hm]
  · have hE : py_int2 (List.replicate 8 '1') = 255 := by decide
    simp only [get_fp_expression, FP32, hE]
    norm_num
    exact fun h => absurd h (by decide)

/-- C5 witness: the all-zero mantissa with sign bit `1` gives `-Inf`. -/
theorem C5_fp32_max_exponent_witness :
    ((List.replicate 23 '0' : List Char).length = 23 ∧
      bin_str_check (List.replicate 23 '0') = true) ∧
    ((py_int2 (List.replicate 23 '0') = 0 ↔
        List.replicate 23 '0' = List.replicate 23 '0') ∧
      get_fp_expression "FP32" FP32 '1' (List.replicate 8 '1') (List.replicate 23 '0') =
        (if py_int2 (List.replicate 23 '0') = 0
         then (if '1' = '0' then FpClass.PosInf else FpClass.NegInf)
         else FpClass.NaN)) :=
  ⟨⟨by decide, by decide⟩, C5_fp32_max_exponent '1' (List.replicate 23 '0') (by decide) (by decide)⟩

/-- C6: over-length input is truncated, not rejected.  For every catalog
format: a valid binary digit string of any length extracts exactly as
its low-order `width` characters do, and always successfully; a valid
non-empty hex digit string parses to a value `n` and extracts exactly as
the binary rendering of `n` does (sharing the same low-`width`-bits
clip), again successfully; and on the 8-bit formats the concrete
`0b` + twenty `1`s equals `0b11111111`. -/
theorem C6_overlength_truncation (p : String × FPFormat) (hp : p ∈ FP_CONFIG) :
    (∀ s : List Char, bin_str_check s = true →
      bin_extractor s p.2 = bin_extractor (s.drop (s.length - p.2.width)) p.2 ∧
      ∃ fp, bin_extractor s p.2 = Except.ok fp) ∧
    (∀ h : List Char, hex_str_check h = true → h ≠ [] →
      ∃ n fp, py_int16 h = Except.ok n ∧
        hex_extractor h p.2 = bin_extractor (pyBin n) p.2 ∧
        hex_extractor h p.2 = Except.ok fp) ∧
    (p.2.width = 8 →
      extract_fp_str p.2 ('0' :: 'b' :: List.replicate 20 '1') =
        extract_fp_str p.2 (String.toList "0b11111111")) := by
  simp only [FP_CONFIG, List.mem_cons, List.not_mem_nil, or_false] at hp
  rcases hp with rfl | rfl | rfl | rfl | rfl | rfl | rfl
  · have t := trunc_general 64 62 52 51 0 (by norm_num) (by norm_num) (by norm_num)
      (by norm_num) (by norm_num)
    exact ⟨t.1, t.2, fun h8 => absurd h8 (by decide)⟩
  · have t := trunc_general 32 30 23 22 0 (by norm_num) (by norm_num) (by norm_num)
      (by norm_num) (by norm_num)
    exact ⟨t.1, t.2, fun h8 => absurd h8 (by decide)⟩
  · have t := trunc_general 32 30 23 22 13 (by norm_num) (by norm_num) (by norm_num)
      (by norm_num) (by norm_num)
    exact ⟨t.1, t.2, fun h8 => absurd h8 (by decide)⟩
  · have t := trunc_general 16 14 10 9 0 (by norm_num) (by norm_num) (by norm_num)
      (by norm_num) (by norm_num)
    exact ⟨t.1, t.2, fun h8 => absurd h8 (by decide)⟩
  · have t := trunc_general 16 14 7 6 0 (by norm_num) (by norm_num) (by norm_num)
      (by norm_num) (by norm_num)
    exact ⟨t.1, t.2, fun h8 => absurd h8 (by decide)⟩
  · have t := trunc_general 8 6 3 2 0 (by norm_num) (by norm_num) (by norm_num)
      (by norm_num) (by norm_num)
    exact ⟨t.1, t.2, fun _ => by decide⟩
  · have t := trunc_general 8 6 2 1 0 (by norm_num) (by norm_num) (by norm_num)
      (by norm_num) (by norm_num)
    exact ⟨t.1, t.2, fun _ => by decide⟩

/-- C6 witness: the truncation on FP8_E4M3 for the twenty-`1`s binary
string, plus the concrete equality with `0b11111111`. -/
theorem C6_overlength_truncation_witness :
    (("FP8_E4M3", FP8_E4M3) ∈ FP_CONFIG ∧
      bin_str_check (List.replicate 20 '1') = true) ∧
    bin_extractor (List.replicate 20 '1') FP8_E4M3 =
      bin_extractor ((List.replicate 20 '1').drop ((List.replicate 20 '1').length - 8)) FP8_E4M3 ∧
    extract_fp_str FP8_E4M3 ('0' :: 'b' :: List.replicate 20 '1') =
      extract_fp_str FP8_E4M3 (String.toList "0b11111111") := by
  have h := C6_overlength_truncation ("FP8_E4M3", FP8_E4M3) (by decide)
  exact ⟨⟨by decide, by decide⟩, (h.1 (List.replicate 20 '1') (by decide)).1, h.2.2 rfl⟩

/-- C7: for every catalog format, bit fields with an all-zero exponent
field and a mantissa of non-zero value classify as `Subnormal` carrying
the given sign, the reported exponent `effective + 1 = 1 - bias`, and
the mantissa bits (rendered after an implicit `0.`); concretely, the
32-bit pattern `0|00000000|00000000000000000000001` reports exponent
`-126` with mantissa fraction `0.00000000000000000000001`. -/
theorem C7_subnormal_reporting (p : String × FPFormat) (hp : p ∈ FP_CONFIG)
    (sc : Char) (m : List Char)
    (hm : m.length = p.2.mantissa.1 - p.2.mantissa.2 + 1)
    (hc : bin_str_check m = true) (hnz : ¬ py_int2 m = 0) :
    get_fp_expression p.1 p.2 sc
        (List.replicate (p.2.exponent.1 - p.2.exponent.2 + 1) '0') m =
      FpClass.Subnormal sc
        (1 - ((2 : Int) ^ (p.2.exponent.1 - p.2.exponent.2 + 1 - 1) - 1)) m ∧
    decode_classify "FP32" FP32
        ('0' :: 'b' :: String.toList "00000000000000000000000000000001") =
      Except.ok (FpClass.Subnormal '0' (-126) (List.replicate 22 '0' ++ ['1'])) := by
  refine ⟨?_, by decide⟩
  simp only [FP_CONFIG, List.mem_cons, List.not_mem_nil, or_false] at hp
  rcases hp with rfl | rfl | rfl | rfl | rfl | rfl | rfl
  · exact get_fp_expression_subnormal _ _ sc m (by decide) hnz
  · exact get_fp_expression_subnormal _ _ sc m (by decide) hnz
  · exact get_fp_expression_subnormal _ _ sc m (by decide) hnz
  · exact get_fp_expression_subnormal _ _ sc m (by decide) hnz
  · exact get_fp_expression_subnormal _ _ sc m (by decide) hnz
  · have hE : py_int2 (List.replicate (6 - 3 + 1) '0') = 0 := by decide
    simp only [get_fp_expression, get_e4m3_expression, FP8_E4M3, hE]
    norm_num [hnz]
  · exact get_fp_expression_subnormal _ _ sc m (by decide) hnz

/-- C7 witness: the 32-bit subnormal with mantissa `0…01` and sign `0`. -/
theorem C7_subnormal_reporting_witness :
    (("FP32", FP32) ∈ FP_CONFIG ∧
      (List.replicate 22 '0' ++ ['1'] : List Char).length = 22 - 0 + 1 ∧
      bin_str_check (List.replicate 22 '0' ++ ['1']) = true ∧
      ¬ py_int2 (List.replicate 22 '0' ++ ['1']) = 0) ∧
    (get_fp_expression "FP32" FP32 '0'
        (List.replicate (30 - 23 + 1) '0') (List.replicate 22 '0' ++ ['1']) =
      FpClass.Subnormal '0' (1 - ((2 : Int) ^ (30 - 23 + 1 - 1) - 1))
        (List.replicate 22 '0' ++ ['1']) ∧
     decode_classify "FP32" FP32
        ('0' :: 'b' :: String.toList "00000000000000000000000000000001") =
      Except.ok (FpClass.Subnormal '0' (-126) (List.replicate 22 '0' ++ ['1']))) :=
  ⟨⟨by decide, by decide, by decide, by decide⟩,
    C7_subnormal_reporting ("FP32", FP32) (by decide) '0'
      (List.replicate 22 '0' ++ ['1']) (by decide) (by decide) (by decide)⟩

/-- C8: on every catalog format, `0xg1` raises the invalid-hex-value
error carrying the offending digit string `g1`, and `0z10` raises the
missing-base-marker error; in both cases the extractor attributes are
assigned only after a successful extraction, so the state is returned
unchanged. -/
theorem C8_invalid_inputs_state (p : String × FPFormat) (hp : p ∈ FP_CONFIG)
    (st : ExtState) :
    extract_fp_run p.2 st (String.toList "0xg1") =
      (st, some (PyErr.invalidHex ['g', '1'])) ∧
    extract_fp_run p.2 st (String.toList "0z10") =
      (st, some (PyErr.missingBase (String.toList "0z10"))) := by
  simp only [FP_CONFIG, List.mem_cons, List.not_mem_nil, or_false] at hp
  rcases hp with rfl | rfl | rfl | rfl | rfl | rfl | rfl <;> exact ⟨rfl, rfl⟩

/-- C8 witness: the two failures observed on the 64-bit extractor in its
initial (all-`None`) state. -/
theorem C8_invalid_inputs_state_witness :
    (("FP64", FP64) ∈ FP_CONFIG) ∧
    (extract_fp_run FP64 ⟨none, none, none⟩ (String.toList "0xg1") =
      (⟨none, none, none⟩, some (PyErr.invalidHex ['g', '1'])) ∧
     extract_fp_run FP64 ⟨none, none, none⟩ (String.toList "0z10") =
      (⟨none, none, none⟩, some (PyErr.missingBase (String.toList "0z10")))) :=
  ⟨by decide, C8_invalid_inputs_state ("FP64", FP64) (by decide) ⟨none, none, none⟩⟩

/-- Totality bundle for a catalog-shaped format: the exponent-index
assertion holds, extraction succeeds on every width-length valid string
with fields of the declared widths, and the full decode-then-classify
pipeline returns a classification for every one of the `2^width`
encodings. -/
theorem totality_general (fmt_name : String) (w em el mm ml : Nat)
    (hem : em + 2 = w) (hmm : mm + 1 = el) (hel : 1 < el)
    (helem : el ≤ em) (hml : ml ≤ mm) :
    1 < el ∧
    (∀ s : List Char, s.length = w → bin_str_check s = true →
      ∃ fp, bin_extractor s ⟨w, (em, el), (mm, ml)⟩ = Except.ok fp ∧
        fp.exponent.length = em - el + 1 ∧ fp.mantissa.length = mm - ml + 1) ∧
    (∀ n, n < 2 ^ w →
      ∃ c, decode_classify fmt_name ⟨w, (em, el), (mm, ml)⟩ ('0' :: 'b' :: pyBin n) =
        Except.ok c) := by
  refine ⟨hel,
    fun s _ hcs => bin_extractor_ok s w em el mm ml hcs hem hmm hel helem hml,
    fun n _ => decode_classify_bin_ok fmt_name _ (pyBin n) (bin_str_check_pyBin n) ?_⟩
  obtain ⟨fp, hfp, -, -⟩ :=
    bin_extractor_ok (pyBin n) w em el mm ml (bin_str_check_pyBin n) hem hmm hel helem hml
  exact ⟨fp, hfp⟩

/-- C10: for every catalog format the exponent lsb index exceeds 1 (so
the extraction assertion never fires); every width-length valid bit
string extracts successfully into fields of lengths
`exponent_msb - exponent_lsb + 1` and `mantissa_msb - mantissa_lsb + 1`;
and decode-then-classify returns a classification (never raises) for
every one of the `2^width` encodings. -/
theorem C10_extraction_classification_total (p : String × FPFormat)
    (hp : p ∈ FP_CONFIG) :
    1 < p.2.exponent.2 ∧
    (∀ s : List Char, s.length = p.2.width → bin_str_check s = true →
      ∃ fp, bin_extractor s p.2 = Except.ok fp ∧
        fp.exponent.length = p.2.exponent.1 - p.2.exponent.2 + 1 ∧
        fp.mantissa.length = p.2.mantissa.1 - p.2.mantissa.2 + 1) ∧
    (∀ n, n < 2 ^ p.2.width →
      ∃ c, decode_classify p.1 p.2 ('0' :: 'b' :: pyBin n) = Except.ok c) := by
  simp only [FP_CONFIG, List.mem_cons, List.not_mem_nil, or_false] at hp
  rcases hp with rfl | rfl | rfl | rfl | rfl | rfl | rfl
  · exact totality_general "FP64" 64 62 52 51 0 (by norm_num) (by norm_num) (by norm_num)
      (by norm_num) (by norm_num)
  · exact totality_general "FP32" 32 30 23 22 0 (by norm_num) (by norm_num) (by norm_num)
      (by norm_num) (by norm_num)
  · exact totality_general "TF32" 32 30 23 22 13 (by norm_num) (by norm_num) (by norm_num)
      (by norm_num) (by norm_num)
  · exact totality_general "FP16" 16 14 10 9 0 (by norm_num) (by norm_num) (by norm_num)
      (by norm_num) (by norm_num)
  · exact totality_general "BF16" 16 14 7 6 0 (by norm_num) (by norm_num) (by norm_num)
      (by norm_num) (by norm_num)
  · exact totality_general "FP8_E4M3" 8 6 3 2 0 (by norm_num) (by norm_num) (by norm_num)
      (by norm_num) (by norm_num)
  · exact totality_general "FP8_E5M2" 8 6 2 1 0 (by norm_num) (by norm_num) (by norm_num)
      (by norm_num) (by norm_num)

/-- C10 witness: the totality bundle instantiated on the brain-float
16-bit format. -/
theorem C10_extraction_classification_total_witness :
    (("BF16", BF16) ∈ FP_CONFIG) ∧
    (1 < (7 : Nat) ∧
     (∀ s : List Char, s.length = 16 → bin_str_check s = true →
       ∃ fp, bin_extractor s BF16 = Except.ok fp ∧
         fp.exponent.length = 14 - 7 + 1 ∧ fp.mantissa.length = 6 - 0 + 1) ∧
     (∀ n, n < 2 ^ (16 : Nat) →
       ∃ c, decode_classify "BF16" BF16 ('0' :: 'b' :: pyBin n) = Except.ok c)) :=
  ⟨by decide, C10_extraction_classification_total ("BF16", BF16) (by decide)⟩
